import Mathlib

/-!
# ModifyExptimeRoute

A shallow embedding of `mcrouter/routes/ModifyExptimeRoute.h`: a route handle that
rewrites the expiration time of a request before handing it to its single child.

* `int32_t` values are kept as `Int`; the code only stores and compares them, so no
  arithmetic can overflow.  `isInt32` names the representable range.
* The effects of the node are made explicit by state passing: every operation takes
  a `World` and gives one back.  A `World` holds a trace of observable events
  (request copies made by `clone`, calls recorded by an instrumented child or
  visitor) and the state of everything downstream of the node.
* Requests are values.  Where the caller's request has to be compared before and
  after a call, `routeRef` runs the same code with requests held in a `Store` and
  passed by address, and is shown to agree with `route`.
-/

namespace mcrouter

/-! ## Data model -/

/-- Policy of a node: `enum class Action { Set, Min }` (lines 37-40). -/
inductive Action where
  | Set
  | Min
  deriving DecidableEq, Repr

/-- The range of `int32_t`. -/
def isInt32 (i : Int) : Prop := -2147483648 ≤ i ∧ i ≤ 2147483647

instance (i : Int) : Decidable (isInt32 i) := by
  unfold isInt32; infer_instance

/-- A request whose type has `RequestTraits<TRequest>::hasExptime`: the `exptime`
field (an `int32_t`) and, in `fields`, everything else the request carries. -/
structure TypedThriftRequest (β : Type) where
  exptime : Int
  fields : β
  deriving DecidableEq, Repr

/-- The requests a route handle can be given.  The two overloads of `route` are
selected by `RequestTraits<TRequest>::hasExptime`; `withExptime` holds the request
types for which it is true, `other` the request types for which it is false. -/
inductive Request (β γ : Type) where
  | withExptime (req : TypedThriftRequest β)
  | other (req : γ)
  deriving DecidableEq, Repr

/-- What an observer can see happen while a node runs. -/
inductive Event (β γ : Type) where
  /-- A copy of `src` was built by `req.clone()`. -/
  | cloned (src : TypedThriftRequest β)
  /-- An instrumented child had its `route` called with `req`. -/
  | routed (req : Request β γ)
  /-- An instrumented visitor was invoked on `req`. -/
  | visited (req : Request β γ)
  deriving DecidableEq, Repr

/-- The state threaded through every operation: the events so far, oldest first,
and the state `ext` of the downstream collaborators. -/
structure World (σ β γ : Type) where
  trace : List (Event β γ)
  ext : σ
  deriving DecidableEq, Repr

/-- A child route handle (`McrouterRouteHandlePtr`): its `route` takes a request,
may change the world, and gives a reply of type `ρ`. -/
structure RouteHandle (σ β γ ρ : Type) where
  route : Request β γ → World σ β γ → ρ × World σ β γ

/-- The visitor handed to `traverse`: a callable on (route handle, request). -/
abbrev RouteHandleTraverser (σ β γ ρ : Type) :=
  RouteHandle σ β γ ρ → Request β γ → World σ β γ → World σ β γ

/-- Modelled from the spec: `req.clone()` of `TypedThriftRequest`, whose header is
not part of the sources at hand.  Section 6: "a clone operation that produces an
independent, mutable copy without aliasing the original".  The copy equals the
request in every field; building it is recorded in the trace. -/
def TypedThriftRequest.clone {σ β γ : Type} (req : TypedThriftRequest β)
    (w : World σ β γ) : TypedThriftRequest β × World σ β γ :=
  (req, { w with trace := w.trace ++ [Event.cloned req] })

/-- Modelled from the spec: `mutReq->set_exptime(e)` of the request type, whose
header is not part of the sources at hand: overwrite the expiration field ("with
the expiration field set to configuredExptime", section 4.1), keep the rest. -/
def TypedThriftRequest.set_exptime {β : Type} (req : TypedThriftRequest β) (e : Int) :
    TypedThriftRequest β :=
  { req with exptime := e }

/-- The node (lines 91-94): its child, the configured exptime and the policy. -/
structure ModifyExptimeRoute (σ β γ ρ : Type) where
  target_ : RouteHandle σ β γ ρ
  exptime_ : Int
  action_ : Action

/-! ## Formatting -/

/-- The part of `folly::sformat` that `routeName` relies on, over the characters of
the format string: `{}` is replaced by the next argument, `{{` and `}}` stand for
a single brace, every other character is copied.  A `{}` with no argument left, or
a brace that is neither doubled nor part of `{}`, is a format error. -/
def sformatAux : List Char → List String → Option (List Char)
  | [], _ => some []
  | '{' :: '}' :: rest, arg :: args => (sformatAux rest args).map (arg.data ++ ·)
  | '{' :: '}' :: _, [] => none
  | '{' :: '{' :: rest, args => (sformatAux rest args).map ('{' :: ·)
  | '}' :: '}' :: rest, args => (sformatAux rest args).map ('}' :: ·)
  | '{' :: _, _ => none
  | '}' :: _, _ => none
  | c :: rest, args => (sformatAux rest args).map (c :: ·)

/-- The call `folly::sformat(fmt, args...)` with the arguments already rendered as
strings; `none` is a format error. -/
def sformat (fmt : String) (args : List String) : Option String :=
  (sformatAux fmt.data args).map String.mk

/-- How `{}` renders an `int32_t`: base ten, a leading `-` for a negative value. -/
def decimal (i : Int) : String :=
  if i < 0 then "-" ++ Nat.repr i.natAbs else Nat.repr i.natAbs

namespace ModifyExptimeRoute

variable {σ β γ ρ : Type}

/-- Modelled from the spec: the body of `actionToString`, which the header only
declares (line 89).  Section 4.1: "Pure total mapping: Set → "set", Min → "min"". -/
def actionToString : Action → String
  | Action.Set => "set"
  | Action.Min => "min"

/-- The member `routeName` (lines 42-45). -/
def routeName (n : ModifyExptimeRoute σ β γ ρ) : Option String :=
  sformat "modify-exptime|{}|exptime={}" [actionToString n.action_, decimal n.exptime_]

/-- The constructor (lines 47-53).  Its only guard is
`assert(action_ != Action::Min || exptime_ != 0)`.  The `assert` macro checks its
condition in a build without `NDEBUG` and expands to nothing in a build with
`NDEBUG`; `assertsEnabled` says which of the two builds runs.  A failed check
aborts the process, so no node is produced: `none`.  Nothing else in the
constructor can fail. -/
def create (assertsEnabled : Bool) (target : RouteHandle σ β γ ρ) (exptime : Int)
    (action : Action) : Option (ModifyExptimeRoute σ β γ ρ) :=
  if assertsEnabled = true ∧ ¬ (action ≠ Action.Min ∨ exptime ≠ 0) then
    none
  else
    some { target_ := target, exptime_ := exptime, action_ := action }

/-- Both overloads of `route` (lines 61-87).  For a request with an exptime the
`switch` on `action_` runs; the `return` after the `switch` (line 81) cannot be
reached because `Action` has no third value.  Any other request goes to the
generic overload, which hands it to the child as it is. -/
def route (n : ModifyExptimeRoute σ β γ ρ) (req : Request β γ) (w : World σ β γ) :
    ρ × World σ β γ :=
  match req with
  | Request.withExptime r =>
    match n.action_ with
    | Action.Set =>
      let (mutReq, w1) := r.clone w
      let mutReq := mutReq.set_exptime n.exptime_
      n.target_.route (Request.withExptime mutReq) w1
    | Action.Min =>
      if r.exptime = 0 ∨ r.exptime > n.exptime_ then
        let (mutReq, w1) := r.clone w
        let mutReq := mutReq.set_exptime n.exptime_
        n.target_.route (Request.withExptime mutReq) w1
      else
        n.target_.route (Request.withExptime r) w
  | Request.other g => n.target_.route (Request.other g) w

/-- The member `traverse` (lines 55-59): `t(*target_, req)`. -/
def traverse (n : ModifyExptimeRoute σ β γ ρ) (req : Request β γ)
    (t : RouteHandleTraverser σ β γ ρ) (w : World σ β γ) : World σ β γ :=
  t n.target_ req w

end ModifyExptimeRoute

/-! ## Instrumented collaborators -/

/-- A child that behaves as `f` on the downstream state and records each call of
its `route` in the trace. -/
def recordingHandle {σ β γ ρ : Type} (f : Request β γ → σ → ρ × σ) :
    RouteHandle σ β γ ρ where
  route req w :=
    let (reply, s) := f req w.ext
    (reply, { trace := w.trace ++ [Event.routed req], ext := s })

/-- A visitor that records each invocation in the trace and does nothing else. -/
def recordingTraverser {σ β γ ρ : Type} : RouteHandleTraverser σ β γ ρ :=
  fun _ req w => { w with trace := w.trace ++ [Event.visited req] }

/-- The requests that a trace records as handed to a recording child, in order. -/
def routedRequests {β γ : Type} : List (Event β γ) → List (Request β γ)
  | [] => []
  | Event.routed req :: es => req :: routedRequests es
  | Event.cloned _ :: es => routedRequests es
  | Event.visited _ :: es => routedRequests es

/-- Run `route` once, from the empty world, on a node with configured exptime `C`
and policy `a` whose child records its calls and replies `()`; the result is the
trace of that run. -/
def probe {β γ : Type} (C : Int) (a : Action) (req : Request β γ) : List (Event β γ) :=
  (ModifyExptimeRoute.route
    { target_ := recordingHandle (fun (_ : Request β γ) (s : Unit) => ((), s)),
      exptime_ := C, action_ := a }
    req { trace := [], ext := () }).2.trace

/-- The requests the child of a node with exptime `C` and policy `a` is called with
when the node routes `req`. -/
def forwarded {β γ : Type} (C : Int) (a : Action) (req : Request β γ) :
    List (Request β γ) :=
  routedRequests (probe C a req)

/-! ## The order on expiration times in which 0 is infinite -/

/-- The order of the class comment and of the spec: `0` means "never expires" and
is above every other value; the non-zero values are ordered as integers. -/
def exptimeLE (a b : Int) : Prop := b = 0 ∨ (a ≠ 0 ∧ a ≤ b)

instance (a b : Int) : Decidable (exptimeLE a b) := by
  unfold exptimeLE; infer_instance

/-- The minimum of two expiration times for `exptimeLE`. -/
def minExptime (a b : Int) : Int := if exptimeLE a b then a else b

/-! ## Sample collaborators for concrete runs -/

/-- A child that replies with the expiration time it was given (`-1` for a request
without one) and counts its calls in the downstream state. -/
def sampleChild : Request String Nat → Nat → Int × Nat
  | Request.withExptime r, s => (r.exptime, s + 1)
  | Request.other _, s => (-1, s + 1)

/-- A world in which nothing has happened yet. -/
def sampleWorld : World Nat String Nat := { trace := [], ext := 0 }

/-! ## A node as the child of another node -/

/-- A node seen as a route handle, so that it can be the child of another node:
the handle's `route` is the node's `route`. -/
def ModifyExptimeRoute.asRouteHandle {σ β γ ρ : Type} (n : ModifyExptimeRoute σ β γ ρ) :
    RouteHandle σ β γ ρ where
  route := n.route

/-- A node with exptime `C1` and policy `a1` whose child is a node with exptime `C2`
and policy `a2`, whose child in turn is `target`. -/
def stacked {σ β γ ρ : Type} (C1 : Int) (a1 : Action) (C2 : Int) (a2 : Action)
    (target : RouteHandle σ β γ ρ) : ModifyExptimeRoute σ β γ ρ :=
  { target_ :=
      ModifyExptimeRoute.asRouteHandle { target_ := target, exptime_ := C2, action_ := a2 },
    exptime_ := C1, action_ := a1 }

/-- The requests the final child is called with when the stacked node routes `req`
from the empty world; the final child records its calls and replies `()`. -/
def forwardedStacked {β γ : Type} (C1 : Int) (a1 : Action) (C2 : Int) (a2 : Action)
    (req : Request β γ) : List (Request β γ) :=
  routedRequests
    (ModifyExptimeRoute.route
      (stacked C1 a1 C2 a2 (recordingHandle (fun (_ : Request β γ) (s : Unit) => ((), s))))
      req { trace := [], ext := () }).2.trace

/-! ## Requests held by reference

`route` takes its request as `const TypedThriftRequest<TRequest>&`.  To speak of
the caller's request before and after the call, requests are kept in a store and
named by their address. -/

/-- Memory holding requests: cell `p` of `cells` is the request at address `p`. -/
structure Store (β : Type) where
  cells : List (TypedThriftRequest β)
  deriving DecidableEq, Repr

/-- The request at address `p`, if there is one. -/
def Store.read {β : Type} (s : Store β) (p : Nat) : Option (TypedThriftRequest β) :=
  s.cells[p]?

/-- Modelled from the spec: `req.clone()` on memory, for the request type whose
header is not part of the sources at hand.  Section 6: "an independent, mutable
copy without aliasing the original".  The copy is a fresh cell, after all
existing ones, with the content of cell `p`; building it is recorded in the trace. -/
def Store.clone {σ β γ : Type} (s : Store β) (p : Nat) (w : World σ β γ) :
    Option (Nat × Store β × World σ β γ) :=
  match s.read p with
  | some r =>
    some (s.cells.length, { cells := s.cells ++ [r] },
      { w with trace := w.trace ++ [Event.cloned r] })
  | none => none

/-- Modelled from the spec: `mutReq->set_exptime(e)` on memory: the cell at address
`p` gets expiration `e` and keeps its other fields; no other cell is written. -/
def Store.set_exptime {β : Type} (s : Store β) (p : Nat) (e : Int) : Store β :=
  match s.read p with
  | some r => { cells := s.cells.set p (r.set_exptime e) }
  | none => s

/-- What a call of `route` by reference leaves behind: the address of the request
the child was called with, the memory at that time, and the child's result. -/
structure RefOutcome (σ β γ ρ : Type) where
  forwardedAt : Nat
  store : Store β
  result : ρ × World σ β γ

/-- The call `target_->route(x)` for the request `x` at address `q`. -/
def ModifyExptimeRoute.routeTargetRef {σ β γ ρ : Type} (n : ModifyExptimeRoute σ β γ ρ)
    (q : Nat) (s : Store β) (w : World σ β γ) : Option (RefOutcome σ β γ ρ) :=
  match s.read q with
  | some x =>
    some { forwardedAt := q, store := s, result := n.target_.route (Request.withExptime x) w }
  | none => none

/-- The `hasExptime` overload of `route` (lines 61-82) with its request passed by
reference: `req` is the request at address `p`, `mutReq` is the address of the
copy.  The result is `none` only for an address that holds no request. -/
def ModifyExptimeRoute.routeRef {σ β γ ρ : Type} (n : ModifyExptimeRoute σ β γ ρ)
    (p : Nat) (s : Store β) (w : World σ β γ) : Option (RefOutcome σ β γ ρ) :=
  match s.read p with
  | none => none
  | some req =>
    match n.action_ with
    | Action.Set =>
      match s.clone p w with
      | none => none
      | some (mutReq, s1, w1) =>
        let s2 := s1.set_exptime mutReq n.exptime_
        n.routeTargetRef mutReq s2 w1
    | Action.Min =>
      if req.exptime = 0 ∨ req.exptime > n.exptime_ then
        match s.clone p w with
        | none => none
        | some (mutReq, s1, w1) =>
          let s2 := s1.set_exptime mutReq n.exptime_
          n.routeTargetRef mutReq s2 w1
      else
        n.routeTargetRef p s w

/-- A store with two requests in it. -/
def sampleStore : Store String :=
  { cells := [{ exptime := 100, fields := "a" }, { exptime := 30, fields := "b" }] }

/-! ## Reading a decimal numeral back -/

/-- The number written by a list of decimal digit characters, most significant
first. -/
def digitsValue (cs : List Char) : Nat :=
  cs.foldl (fun acc c => acc * 10 + (c.toNat - 48)) 0

/-! ## Facts about the order `exptimeLE` -/

theorem exptimeLE_zero_top (a : Int) : exptimeLE a 0 := Or.inl rfl

theorem exptimeLE_zero_left {b : Int} (hb : b ≠ 0) : ¬ exptimeLE 0 b := by
  unfold exptimeLE; simp [hb]

theorem exptimeLE_of_ne_zero {a b : Int} (ha : a ≠ 0) (hb : b ≠ 0) :
    exptimeLE a b ↔ a ≤ b := by
  unfold exptimeLE; simp [ha, hb]

theorem exptimeLE_refl (a : Int) : exptimeLE a a := by
  unfold exptimeLE
  by_cases h : a = 0
  · exact Or.inl h
  · exact Or.inr ⟨h, le_refl a⟩

theorem exptimeLE_trans {a b c : Int} (hab : exptimeLE a b) (hbc : exptimeLE b c) :
    exptimeLE a c := by
  unfold exptimeLE at *
  rcases hbc with hc | ⟨hb, hbc⟩
  · exact Or.inl hc
  · rcases hab with hb0 | ⟨ha, hab⟩
    · exact absurd hb0 hb
    · exact Or.inr ⟨ha, le_trans hab hbc⟩

theorem exptimeLE_antisymm {a b : Int} (hab : exptimeLE a b) (hba : exptimeLE b a) :
    a = b := by
  unfold exptimeLE at *
  rcases hab with hb | ⟨ha, hab⟩
  · rcases hba with ha | ⟨hb0, _⟩
    · rw [ha, hb]
    · exact absurd hb hb0
  · rcases hba with ha0 | ⟨_, hba⟩
    · exact absurd ha0 ha
    · exact le_antisymm hab hba

theorem exptimeLE_total (a b : Int) : exptimeLE a b ∨ exptimeLE b a := by
  unfold exptimeLE
  by_cases ha : a = 0
  · exact Or.inr (Or.inl ha)
  · by_cases hb : b = 0
    · exact Or.inl (Or.inl hb)
    · rcases le_total a b with h | h
      · exact Or.inl (Or.inr ⟨ha, h⟩)
      · exact Or.inr (Or.inr ⟨hb, h⟩)

theorem minExptime_le_left (a b : Int) : exptimeLE (minExptime a b) a := by
  unfold minExptime
  by_cases h : exptimeLE a b
  · rw [if_pos h]; exact exptimeLE_refl a
  · rw [if_neg h]; exact (exptimeLE_total a b).resolve_left h

theorem minExptime_le_right (a b : Int) : exptimeLE (minExptime a b) b := by
  unfold minExptime
  by_cases h : exptimeLE a b
  · rw [if_pos h]; exact h
  · rw [if_neg h]; exact exptimeLE_refl b

theorem minExptime_greatest {a b c : Int} (hca : exptimeLE c a) (hcb : exptimeLE c b) :
    exptimeLE c (minExptime a b) := by
  unfold minExptime
  by_cases h : exptimeLE a b
  · rw [if_pos h]; exact hca
  · rw [if_neg h]; exact hcb

/-! ## Set -/

/-- C1 (Set correctness): for every request with an expiration field, whatever its
expiration, and every configured exptime `C` (zero and negative included), a node
with policy Set builds one copy, calls the child on the copy whose expiration is
`C` and whose other fields are the caller's, and returns what the child returns
for it.  With a recording child the trace grows by exactly the copy and the one
call, and reply and downstream state are the child's on the rewritten request. -/
theorem set_forwards_configured_exptime {σ β γ ρ : Type}
    (target : RouteHandle σ β γ ρ) (f : Request β γ → σ → ρ × σ)
    (C : Int) (r : TypedThriftRequest β) (w : World σ β γ) :
    ModifyExptimeRoute.route { target_ := target, exptime_ := C, action_ := Action.Set }
        (Request.withExptime r) w
      = target.route (Request.withExptime { exptime := C, fields := r.fields })
          { trace := w.trace ++ [Event.cloned r], ext := w.ext }
    ∧ ModifyExptimeRoute.route
        { target_ := recordingHandle f, exptime_ := C, action_ := Action.Set }
        (Request.withExptime r) w
      = ((f (Request.withExptime { exptime := C, fields := r.fields }) w.ext).1,
          { trace := w.trace ++ [Event.cloned r,
              Event.routed (Request.withExptime { exptime := C, fields := r.fields })],
            ext := (f (Request.withExptime { exptime := C, fields := r.fields }) w.ext).2 }) := by
  constructor
  · rfl
  · simp [ModifyExptimeRoute.route, TypedThriftRequest.clone,
      TypedThriftRequest.set_exptime, recordingHandle]

/-! ## Min -/

/-- The rewriting branch of Min, for any child and any world. -/
theorem route_min_rewrite {σ β γ ρ : Type} (target : RouteHandle σ β γ ρ) (C : Int)
    (r : TypedThriftRequest β) (w : World σ β γ) (h : r.exptime = 0 ∨ r.exptime > C) :
    ModifyExptimeRoute.route { target_ := target, exptime_ := C, action_ := Action.Min }
        (Request.withExptime r) w
      = target.route (Request.withExptime { exptime := C, fields := r.fields })
          { trace := w.trace ++ [Event.cloned r], ext := w.ext } := by
  simp [ModifyExptimeRoute.route, TypedThriftRequest.clone,
    TypedThriftRequest.set_exptime, h]

/-- The forwarding branch of Min, for any child and any world. -/
theorem route_min_keep {σ β γ ρ : Type} (target : RouteHandle σ β γ ρ) (C : Int)
    (r : TypedThriftRequest β) (w : World σ β γ) (h : ¬ (r.exptime = 0 ∨ r.exptime > C)) :
    ModifyExptimeRoute.route { target_ := target, exptime_ := C, action_ := Action.Min }
        (Request.withExptime r) w
      = target.route (Request.withExptime r) w := by
  simp only [ModifyExptimeRoute.route, if_neg h]

/-- The trace of a probing run of Min that rewrites. -/
theorem probe_min_rewrite {β γ : Type} (C : Int) (r : TypedThriftRequest β)
    (h : r.exptime = 0 ∨ r.exptime > C) :
    probe C Action.Min (Request.withExptime r : Request β γ)
      = [Event.cloned r,
          Event.routed (Request.withExptime { exptime := C, fields := r.fields })] := by
  unfold probe
  rw [route_min_rewrite _ _ _ _ h]
  simp [recordingHandle]

/-- The trace of a probing run of Min that forwards the original. -/
theorem probe_min_keep {β γ : Type} (C : Int) (r : TypedThriftRequest β)
    (h : ¬ (r.exptime = 0 ∨ r.exptime > C)) :
    probe C Action.Min (Request.withExptime r : Request β γ)
      = [Event.routed (Request.withExptime r)] := by
  unfold probe
  rw [route_min_keep _ _ _ _ h]
  simp [recordingHandle]

/-- C2 (Min, infinite source): a request with an expiration field whose expiration
is 0, routed by a Min node with configured exptime `C ≠ 0`, reaches the child as a
copy whose expiration is `C`; the child is called with that request and no other. -/
theorem min_infinite_source {σ β γ ρ : Type} (target : RouteHandle σ β γ ρ) (C : Int)
    (r : TypedThriftRequest β) (w : World σ β γ) (hE : r.exptime = 0) (hC : C ≠ 0) :
    ModifyExptimeRoute.route { target_ := target, exptime_ := C, action_ := Action.Min }
        (Request.withExptime r) w
      = target.route (Request.withExptime { exptime := C, fields := r.fields })
          { trace := w.trace ++ [Event.cloned r], ext := w.ext }
    ∧ forwarded C Action.Min (Request.withExptime r : Request β γ)
      = [Request.withExptime { exptime := C, fields := r.fields }] := by
  have _ := hC
  refine ⟨route_min_rewrite target C r w (Or.inl hE), ?_⟩
  unfold forwarded
  rw [probe_min_rewrite C r (Or.inl hE)]
  rfl

theorem min_infinite_source_witness :
    ((0 : Int) = 0 ∧ (60 : Int) ≠ 0)
    ∧ ModifyExptimeRoute.route
        { target_ := recordingHandle sampleChild, exptime_ := 60, action_ := Action.Min }
        (Request.withExptime { exptime := 0, fields := "key" }) sampleWorld
      = (recordingHandle sampleChild).route
          (Request.withExptime { exptime := 60, fields := "key" })
          { trace := sampleWorld.trace ++ [Event.cloned { exptime := 0, fields := "key" }],
            ext := sampleWorld.ext }
    ∧ forwarded 60 Action.Min
        (Request.withExptime { exptime := 0, fields := "key" } : Request String Nat)
      = [Request.withExptime { exptime := 60, fields := "key" }] :=
  ⟨by decide,
    min_infinite_source (recordingHandle sampleChild) 60 { exptime := 0, fields := "key" }
      sampleWorld rfl (by decide)⟩

/-- C3 (Min, source above ceiling): a request with an expiration field whose
expiration `E` is greater than the configured exptime `C`, routed by a Min node,
reaches the child as a copy whose expiration is `C`; the child is called with that
request and no other. -/
theorem min_source_above_ceiling {σ β γ ρ : Type} (target : RouteHandle σ β γ ρ)
    (C : Int) (r : TypedThriftRequest β) (w : World σ β γ) (hE : r.exptime > C) :
    ModifyExptimeRoute.route { target_ := target, exptime_ := C, action_ := Action.Min }
        (Request.withExptime r) w
      = target.route (Request.withExptime { exptime := C, fields := r.fields })
          { trace := w.trace ++ [Event.cloned r], ext := w.ext }
    ∧ forwarded C Action.Min (Request.withExptime r : Request β γ)
      = [Request.withExptime { exptime := C, fields := r.fields }] := by
  refine ⟨route_min_rewrite target C r w (Or.inr hE), ?_⟩
  unfold forwarded
  rw [probe_min_rewrite C r (Or.inr hE)]
  rfl

theorem min_source_above_ceiling_witness :
    ((100 : Int) > 60)
    ∧ ModifyExptimeRoute.route
        { target_ := recordingHandle sampleChild, exptime_ := 60, action_ := Action.Min }
        (Request.withExptime { exptime := 100, fields := "key" }) sampleWorld
      = (recordingHandle sampleChild).route
          (Request.withExptime { exptime := 60, fields := "key" })
          { trace := sampleWorld.trace ++ [Event.cloned { exptime := 100, fields := "key" }],
            ext := sampleWorld.ext }
    ∧ forwarded 60 Action.Min
        (Request.withExptime { exptime := 100, fields := "key" } : Request String Nat)
      = [Request.withExptime { exptime := 60, fields := "key" }] :=
  ⟨by decide,
    min_source_above_ceiling (recordingHandle sampleChild) 60
      { exptime := 100, fields := "key" } sampleWorld (by decide)⟩

/-- C4 (Min, source at or below ceiling): a request with an expiration field whose
expiration `E` satisfies `0 < E ≤ C`, routed by a Min node, is handed to the child
as it is, in the world as it is (no copy is built): the result is the child's on
the caller's request, the probing run shows the one call and nothing else, and the
request the child sees is the caller's, expiration `E` included. -/
theorem min_source_at_or_below_ceiling {σ β γ ρ : Type} (target : RouteHandle σ β γ ρ)
    (C : Int) (r : TypedThriftRequest β) (w : World σ β γ)
    (hpos : 0 < r.exptime) (hle : r.exptime ≤ C) :
    ModifyExptimeRoute.route { target_ := target, exptime_ := C, action_ := Action.Min }
        (Request.withExptime r) w
      = target.route (Request.withExptime r) w
    ∧ probe C Action.Min (Request.withExptime r : Request β γ)
      = [Event.routed (Request.withExptime r)]
    ∧ forwarded C Action.Min (Request.withExptime r : Request β γ)
      = [Request.withExptime r] := by
  have h : ¬ (r.exptime = 0 ∨ r.exptime > C) := by
    rintro (h0 | hgt)
    · omega
    · omega
  refine ⟨route_min_keep target C r w h, probe_min_keep C r h, ?_⟩
  unfold forwarded
  rw [probe_min_keep C r h]
  rfl

theorem min_source_at_or_below_ceiling_witness :
    ((0 : Int) < 30 ∧ (30 : Int) ≤ 60)
    ∧ ModifyExptimeRoute.route
        { target_ := recordingHandle sampleChild, exptime_ := 60, action_ := Action.Min }
        (Request.withExptime { exptime := 30, fields := "key" }) sampleWorld
      = (recordingHandle sampleChild).route
          (Request.withExptime { exptime := 30, fields := "key" }) sampleWorld
    ∧ probe 60 Action.Min
        (Request.withExptime { exptime := 30, fields := "key" } : Request String Nat)
      = [Event.routed (Request.withExptime { exptime := 30, fields := "key" })]
    ∧ forwarded 60 Action.Min
        (Request.withExptime { exptime := 30, fields := "key" } : Request String Nat)
      = [Request.withExptime { exptime := 30, fields := "key" }] :=
  ⟨by decide,
    min_source_at_or_below_ceiling (recordingHandle sampleChild) 60
      { exptime := 30, fields := "key" } sampleWorld (by decide) (by decide)⟩

/-- C5, as the code has it: for every request expiration `E` and every configured
exptime `C ≠ 0`, a Min node rewrites (one copy, then the child called on the copy
with expiration `C`) exactly when `E = 0` or `E > C`, and hands the caller's
request to the child with no copy exactly when `E ≠ 0` and `E ≤ C`; so a request
forwarded unchanged has `E ≠ 0` and `E ≤ C`, and `E` may be negative. -/
theorem min_case_split {β γ : Type} (C : Int) (r : TypedThriftRequest β) (hC : C ≠ 0) :
    (probe C Action.Min (Request.withExptime r : Request β γ)
        = [Event.cloned r,
            Event.routed (Request.withExptime { exptime := C, fields := r.fields })]
      ↔ (r.exptime = 0 ∨ r.exptime > C))
    ∧ (probe C Action.Min (Request.withExptime r : Request β γ)
        = [Event.routed (Request.withExptime r)]
      ↔ (r.exptime ≠ 0 ∧ r.exptime ≤ C)) := by
  have _ := hC
  by_cases h : r.exptime = 0 ∨ r.exptime > C
  · rw [probe_min_rewrite C r h]
    refine ⟨⟨fun _ => h, fun _ => rfl⟩, ⟨fun hlist => ?_, fun hkeep => ?_⟩⟩
    · simp at hlist
    · rcases h with h0 | hgt
      · exact absurd h0 hkeep.1
      · omega
  · rw [probe_min_keep C r h]
    refine ⟨⟨fun hlist => ?_, fun hrw => absurd hrw h⟩, ⟨fun _ => ?_, fun _ => rfl⟩⟩
    · simp at hlist
    · constructor
      · exact fun h0 => h (Or.inl h0)
      · by_contra hgt
        exact h (Or.inr (by omega))

theorem min_case_split_witness :
    ((60 : Int) ≠ 0)
    ∧ (probe 60 Action.Min
          (Request.withExptime { exptime := -5, fields := "key" } : Request String Nat)
        = [Event.cloned { exptime := -5, fields := "key" },
            Event.routed (Request.withExptime { exptime := 60, fields := "key" })]
      ↔ ((-5 : Int) = 0 ∨ (-5 : Int) > 60))
    ∧ (probe 60 Action.Min
          (Request.withExptime { exptime := -5, fields := "key" } : Request String Nat)
        = [Event.routed (Request.withExptime { exptime := -5, fields := "key" })]
      ↔ ((-5 : Int) ≠ 0 ∧ (-5 : Int) ≤ 60)) :=
  ⟨by decide, min_case_split 60 { exptime := -5, fields := "key" } (by decide)⟩

/-- C5, as the claim words it, fails: with `C = 1 ≠ 0` and `E = -1`, both in the
range of `int32_t`, the Min node hands the caller's request to the child unchanged
and without a copy, although `0 < E ≤ C` is false; so "forwarded unchanged exactly
when `0 < E ≤ C`" is false at this input. -/
theorem min_case_split_counterexample :
    (isInt32 (-1) ∧ isInt32 1 ∧ (1 : Int) ≠ 0)
    ∧ probe 1 Action.Min
          (Request.withExptime { exptime := -1, fields := "key" } : Request String Nat)
        = [Event.routed (Request.withExptime { exptime := -1, fields := "key" })]
    ∧ ¬ ((0 : Int) < -1 ∧ (-1 : Int) ≤ 1)
    ∧ ¬ (probe 1 Action.Min
          (Request.withExptime { exptime := -1, fields := "key" } : Request String Nat)
        = [Event.routed (Request.withExptime { exptime := -1, fields := "key" })]
      ↔ ((0 : Int) < -1 ∧ (-1 : Int) ≤ 1)) := by
  have hp : probe 1 Action.Min
      (Request.withExptime { exptime := -1, fields := "key" } : Request String Nat)
      = [Event.routed (Request.withExptime { exptime := -1, fields := "key" })] := by
    decide
  refine ⟨by decide, hp, by decide, fun hiff => ?_⟩
  exact absurd (hiff.mp hp) (by decide)

/-- C6 (Min is a minimum with 0 as infinity): for every request expiration `E` and
every configured exptime `C ≠ 0`, the one request a Min node hands to its child has
expiration `minExptime E C`, the minimum of `E` and `C` in the order `exptimeLE`
in which 0 is above every non-zero value and non-zero values are ordered as usual;
its other fields are the caller's.  For any child the node returns what the child
returns on that request. -/
theorem min_is_minimum_with_zero_infinite {σ β γ ρ : Type}
    (target : RouteHandle σ β γ ρ) (C : Int) (r : TypedThriftRequest β)
    (w : World σ β γ) (hC : C ≠ 0) :
    forwarded C Action.Min (Request.withExptime r : Request β γ)
      = [Request.withExptime { exptime := minExptime r.exptime C, fields := r.fields }]
    ∧ ModifyExptimeRoute.route { target_ := target, exptime_ := C, action_ := Action.Min }
        (Request.withExptime r) w
      = target.route
          (Request.withExptime { exptime := minExptime r.exptime C, fields := r.fields })
          (if r.exptime = 0 ∨ r.exptime > C then
            { trace := w.trace ++ [Event.cloned r], ext := w.ext }
          else w) := by
  by_cases h : r.exptime = 0 ∨ r.exptime > C
  · have hmin : minExptime r.exptime C = C := by
      unfold minExptime exptimeLE
      rw [if_neg]
      rintro (h0 | ⟨hne, hle⟩)
      · exact hC h0
      · rcases h with h0 | hgt
        · exact hne h0
        · omega
    rw [hmin, if_pos h]
    refine ⟨?_, route_min_rewrite target C r w h⟩
    unfold forwarded
    rw [probe_min_rewrite C r h]
    rfl
  · have hmin : minExptime r.exptime C = r.exptime := by
      unfold minExptime exptimeLE
      rw [if_pos]
      refine Or.inr ⟨fun h0 => h (Or.inl h0), ?_⟩
      by_contra hgt
      exact h (Or.inr (by omega))
    rw [hmin, if_neg h]
    refine ⟨?_, route_min_keep target C r w h⟩
    unfold forwarded
    rw [probe_min_keep C r h]
    rfl

theorem min_is_minimum_with_zero_infinite_witness :
    ((60 : Int) ≠ 0)
    ∧ forwarded 60 Action.Min
        (Request.withExptime { exptime := 0, fields := "key" } : Request String Nat)
      = [Request.withExptime { exptime := minExptime 0 60, fields := "key" }]
    ∧ ModifyExptimeRoute.route
        { target_ := recordingHandle sampleChild, exptime_ := 60, action_ := Action.Min }
        (Request.withExptime { exptime := 0, fields := "key" }) sampleWorld
      = (recordingHandle sampleChild).route
          (Request.withExptime { exptime := minExptime 0 60, fields := "key" })
          (if (0 : Int) = 0 ∨ (0 : Int) > 60 then
            { trace := sampleWorld.trace ++ [Event.cloned { exptime := 0, fields := "key" }],
              ext := sampleWorld.ext }
          else sampleWorld) :=
  ⟨by decide,
    min_is_minimum_with_zero_infinite (recordingHandle sampleChild) 60
      { exptime := 0, fields := "key" } sampleWorld (by decide)⟩

/-! ## Requests without an expiration field -/

/-- C7 (pass-through invariance): for a request without an expiration field, every
node (any policy, any configured exptime, any child) hands the request to the
child as it is, in the world as it is, and returns the child's result.  With a
recording child the trace grows by that one call only (no copy is built), and
reply and downstream state are the child's on the unmodified request. -/
theorem other_request_passes_through {σ β γ ρ : Type} (n : ModifyExptimeRoute σ β γ ρ)
    (f : Request β γ → σ → ρ × σ) (C : Int) (a : Action) (g : γ) (w : World σ β γ) :
    n.route (Request.other g) w = n.target_.route (Request.other g) w
    ∧ ModifyExptimeRoute.route
        { target_ := recordingHandle f, exptime_ := C, action_ := a } (Request.other g) w
      = ((f (Request.other g) w.ext).1,
          { trace := w.trace ++ [Event.routed (Request.other g)],
            ext := (f (Request.other g) w.ext).2 })
    ∧ forwarded C a (Request.other g : Request β γ) = [Request.other g] := by
  refine ⟨rfl, ?_, ?_⟩
  · simp [ModifyExptimeRoute.route, recordingHandle]
  · simp [forwarded, probe, ModifyExptimeRoute.route, recordingHandle, routedRequests]

/-! ## Traversal -/

/-- C8 (traversal isolation): for every node and every request, `traverse` is the
visitor applied once to the child and the caller's request.  With a recording
visitor, and a child that would record a call of its `route`, the trace grows by
the one visit of the unmodified request and by nothing else: no call of the
child's `route`, no copy; the downstream state is untouched. -/
theorem traverse_visits_child_once {σ β γ ρ : Type} (n : ModifyExptimeRoute σ β γ ρ)
    (t : RouteHandleTraverser σ β γ ρ) (f : Request β γ → σ → ρ × σ) (C : Int)
    (a : Action) (req : Request β γ) (w : World σ β γ) :
    n.traverse req t w = t n.target_ req w
    ∧ ModifyExptimeRoute.traverse
        { target_ := recordingHandle f, exptime_ := C, action_ := a }
        req recordingTraverser w
      = { trace := w.trace ++ [Event.visited req], ext := w.ext }
    ∧ routedRequests
        (ModifyExptimeRoute.traverse
          { target_ := recordingHandle f, exptime_ := C, action_ := a }
          req recordingTraverser { trace := [], ext := w.ext }).trace = [] := by
  refine ⟨rfl, rfl, rfl⟩

/-! ## Construction -/

/-- C9, as the code has it: the constructor's guard is an `assert`.  In a build
where assertions are checked, construction fails exactly for policy Min with
configured exptime 0, so there (Min, 0) fails; in a build with `NDEBUG` no
construction fails.  In either build a construction that does not fail yields the
node holding the three arguments, (Set, 0) succeeds, and every negative exptime is
accepted under both policies. -/
theorem create_guard {σ β γ ρ : Type} (assertsEnabled : Bool)
    (target : RouteHandle σ β γ ρ) (C : Int) (a : Action) (k : Nat) :
    (ModifyExptimeRoute.create assertsEnabled target C a = none
      ↔ (assertsEnabled = true ∧ a = Action.Min ∧ C = 0))
    ∧ ModifyExptimeRoute.create assertsEnabled target C a
      = (if assertsEnabled = true ∧ a = Action.Min ∧ C = 0 then none
          else some { target_ := target, exptime_ := C, action_ := a })
    ∧ (ModifyExptimeRoute.create true target C a = none ↔ (a = Action.Min ∧ C = 0))
    ∧ ModifyExptimeRoute.create true target 0 Action.Min = none
    ∧ ModifyExptimeRoute.create false target C a
      = some { target_ := target, exptime_ := C, action_ := a }
    ∧ ModifyExptimeRoute.create assertsEnabled target 0 Action.Set
      = some { target_ := target, exptime_ := 0, action_ := Action.Set }
    ∧ ModifyExptimeRoute.create assertsEnabled target (Int.negSucc k) a
      = some { target_ := target, exptime_ := Int.negSucc k, action_ := a } := by
  have hneg : Int.negSucc k ≠ 0 := by simp
  refine ⟨?_, ?_, ?_, ?_, ?_, ?_, ?_⟩
  · cases assertsEnabled <;> cases a <;> by_cases hC : C = 0 <;>
      simp [ModifyExptimeRoute.create, hC]
  · cases assertsEnabled <;> cases a <;> by_cases hC : C = 0 <;>
      simp [ModifyExptimeRoute.create, hC]
  · cases a <;> by_cases hC : C = 0 <;> simp [ModifyExptimeRoute.create, hC]
  · simp [ModifyExptimeRoute.create]
  · simp [ModifyExptimeRoute.create]
  · cases assertsEnabled <;> simp [ModifyExptimeRoute.create]
  · cases assertsEnabled <;> cases a <;> simp [ModifyExptimeRoute.create, hneg]

/-- C9, as the claim words it, fails: in a build with `NDEBUG` the constructor
given policy Min and configured exptime 0 does not fail but yields the (Min, 0)
node, so "construction fails if and only if policy = Min and exptime = 0" is
false there.  Such a node rewrites a request that expires after 5 seconds into one
that never expires. -/
theorem create_guard_counterexample :
    ModifyExptimeRoute.create false (recordingHandle sampleChild) 0 Action.Min
      = some { target_ := recordingHandle sampleChild, exptime_ := 0, action_ := Action.Min }
    ∧ ¬ (ModifyExptimeRoute.create false (recordingHandle sampleChild) 0 Action.Min = none
          ↔ (Action.Min = Action.Min ∧ (0 : Int) = 0))
    ∧ forwarded 0 Action.Min
        (Request.withExptime { exptime := 5, fields := "key" } : Request String Nat)
      = [Request.withExptime { exptime := 0, fields := "key" }] := by
  have hsome : ModifyExptimeRoute.create false (recordingHandle sampleChild) 0 Action.Min
      = some { target_ := recordingHandle sampleChild, exptime_ := 0,
               action_ := Action.Min } := by
    simp [ModifyExptimeRoute.create]
  refine ⟨hsome, fun hiff => ?_, by decide⟩
  have hnone := hiff.mpr ⟨rfl, rfl⟩
  rw [hsome] at hnone
  cases hnone

/-! ## Name -/

/-- The format string of `routeName`, interpreted for any two arguments. -/
theorem sformat_routeName (p d : String) :
    sformat "modify-exptime|{}|exptime={}" [p, d]
      = some ("modify-exptime|" ++ p ++ "|exptime=" ++ d) := by
  simp only [sformat, sformatAux, Option.map_some']
  congr 1
  apply String.ext
  simp [String.data_append]

/-- C10 (name formatting): for every policy and every configured exptime `C`,
`routeName` succeeds and gives "modify-exptime|" followed by `actionToString` of
the policy, "|exptime=" and `C` in decimal; `actionToString` is "set" for Set and
"min" for Min.  (Set, 30) gives "modify-exptime|set|exptime=30", (Min, 60) gives
"modify-exptime|min|exptime=60", and the least `int32_t` is written with its sign. -/
theorem routeName_format {σ β γ ρ : Type} (n : ModifyExptimeRoute σ β γ ρ)
    (target : RouteHandle σ β γ ρ) :
    n.routeName
      = some ("modify-exptime|" ++ ModifyExptimeRoute.actionToString n.action_
          ++ "|exptime=" ++ decimal n.exptime_)
    ∧ ModifyExptimeRoute.actionToString Action.Set = "set"
    ∧ ModifyExptimeRoute.actionToString Action.Min = "min"
    ∧ ModifyExptimeRoute.routeName
        { target_ := target, exptime_ := 30, action_ := Action.Set }
      = some "modify-exptime|set|exptime=30"
    ∧ ModifyExptimeRoute.routeName
        { target_ := target, exptime_ := 60, action_ := Action.Min }
      = some "modify-exptime|min|exptime=60"
    ∧ ModifyExptimeRoute.routeName
        { target_ := target, exptime_ := -2147483648, action_ := Action.Min }
      = some "modify-exptime|min|exptime=-2147483648" := by
  refine ⟨sformat_routeName _ _, rfl, rfl, ?_, ?_, ?_⟩
  · rw [ModifyExptimeRoute.routeName, sformat_routeName]
    show some ("modify-exptime|" ++ ModifyExptimeRoute.actionToString Action.Set
      ++ "|exptime=" ++ decimal 30) = some "modify-exptime|set|exptime=30"
    decide
  · rw [ModifyExptimeRoute.routeName, sformat_routeName]
    show some ("modify-exptime|" ++ ModifyExptimeRoute.actionToString Action.Min
      ++ "|exptime=" ++ decimal 60) = some "modify-exptime|min|exptime=60"
    decide
  · rw [ModifyExptimeRoute.routeName, sformat_routeName]
    show some ("modify-exptime|" ++ ModifyExptimeRoute.actionToString Action.Min
      ++ "|exptime=" ++ decimal (-2147483648)) = some "modify-exptime|min|exptime=-2147483648"
    decide

/-! ## One call of the child, its result returned as it is -/

theorem routedRequests_append {β γ : Type} (xs ys : List (Event β γ)) :
    routedRequests (xs ++ ys) = routedRequests xs ++ routedRequests ys := by
  induction xs with
  | nil => rfl
  | cons e es ih => cases e <;> simp [routedRequests, ih]

/-- The Set branch, for any child and any world. -/
theorem route_set_eq {σ β γ ρ : Type} (target : RouteHandle σ β γ ρ) (C : Int)
    (r : TypedThriftRequest β) (w : World σ β γ) :
    ModifyExptimeRoute.route { target_ := target, exptime_ := C, action_ := Action.Set }
        (Request.withExptime r) w
      = target.route (Request.withExptime { exptime := C, fields := r.fields })
          { trace := w.trace ++ [Event.cloned r], ext := w.ext } := rfl

/-- A recording child called once. -/
theorem recordingHandle_route {σ β γ ρ : Type} (f : Request β γ → σ → ρ × σ)
    (req : Request β γ) (w : World σ β γ) :
    (recordingHandle f).route req w
      = ((f req w.ext).1, { trace := w.trace ++ [Event.routed req], ext := (f req w.ext).2 }) :=
  rfl

/-- Every call of `route` is one call of the child: there are a request `req1`, the
one the probing run shows, and a list `pre` of events without any call of the child
such that, for any child and any world, the node returns what the child returns on
`req1` in the world extended by `pre`. -/
theorem route_via_forwarded {β γ : Type} (C : Int) (a : Action) (req : Request β γ) :
    ∃ (req1 : Request β γ) (pre : List (Event β γ)), routedRequests pre = []
      ∧ forwarded C a req = [req1]
      ∧ ∀ (σ ρ : Type) (target : RouteHandle σ β γ ρ) (w : World σ β γ),
          ModifyExptimeRoute.route { target_ := target, exptime_ := C, action_ := a } req w
            = target.route req1 { trace := w.trace ++ pre, ext := w.ext } := by
  have key : ∃ (req1 : Request β γ) (pre : List (Event β γ)), routedRequests pre = []
      ∧ ∀ (σ ρ : Type) (target : RouteHandle σ β γ ρ) (w : World σ β γ),
          ModifyExptimeRoute.route { target_ := target, exptime_ := C, action_ := a } req w
            = target.route req1 { trace := w.trace ++ pre, ext := w.ext } := by
    cases req with
    | other g =>
      exact ⟨Request.other g, [], rfl, fun σ ρ target w => by simp [ModifyExptimeRoute.route]⟩
    | withExptime r =>
      cases a with
      | Set =>
        exact ⟨Request.withExptime { exptime := C, fields := r.fields }, [Event.cloned r],
          rfl, fun σ ρ target w => route_set_eq target C r w⟩
      | Min =>
        by_cases h : r.exptime = 0 ∨ r.exptime > C
        · exact ⟨Request.withExptime { exptime := C, fields := r.fields }, [Event.cloned r],
            rfl, fun σ ρ target w => route_min_rewrite target C r w h⟩
        · exact ⟨Request.withExptime r, [], rfl,
            fun σ ρ target w => by rw [route_min_keep target C r w h]; simp⟩
  obtain ⟨req1, pre, hpre, hroute⟩ := key
  refine ⟨req1, pre, hpre, ?_, hroute⟩
  unfold forwarded probe
  rw [hroute, recordingHandle_route]
  simp [routedRequests_append, hpre, routedRequests]

/-- C11 (single delegation, verbatim result): for every policy, configured exptime
and request there are one request `req1` and a list `pre` of events holding no
call of the child (it is empty or the one copy) such that, whatever the child and
the world: the node returns exactly what the child's `route` returns on `req1`;
with a recording child the trace grows by `pre` and then the single call on `req1`,
and reply (a value or an error, whatever the reply type holds) and downstream
state are those of that one call; the probing run shows `req1` as the only request
the child was called with. -/
theorem route_delegates_once {β γ : Type} (C : Int) (a : Action) (req : Request β γ) :
    ∃ (req1 : Request β γ) (pre : List (Event β γ)), routedRequests pre = []
      ∧ forwarded C a req = [req1]
      ∧ (∀ (σ ρ : Type) (target : RouteHandle σ β γ ρ) (w : World σ β γ),
          ModifyExptimeRoute.route { target_ := target, exptime_ := C, action_ := a } req w
            = target.route req1 { trace := w.trace ++ pre, ext := w.ext })
      ∧ (∀ (σ ρ : Type) (f : Request β γ → σ → ρ × σ) (w : World σ β γ),
          ModifyExptimeRoute.route
              { target_ := recordingHandle f, exptime_ := C, action_ := a } req w
            = ((f req1 w.ext).1,
                { trace := w.trace ++ pre ++ [Event.routed req1],
                  ext := (f req1 w.ext).2 })) := by
  obtain ⟨req1, pre, hpre, hfwd, hroute⟩ := route_via_forwarded C a req
  refine ⟨req1, pre, hpre, hfwd, hroute, ?_⟩
  intro σ ρ f w
  rw [hroute, recordingHandle_route]

/-- C13 (Min never forwards "never expires" nor anything above the ceiling): for
every request with an expiration field and every Min node with `C ≠ 0`, the one
request the child is called with has the caller's other fields and an expiration
`e` with `e ≠ 0` and `e ≤ C`; and when `C < 0` and the request's expiration is
`≥ 0`, `e` is the negative `C`. -/
theorem min_forwarded_bounds {β γ : Type} (C : Int) (r : TypedThriftRequest β)
    (hC : C ≠ 0) :
    ∃ e : Int,
      forwarded C Action.Min (Request.withExptime r : Request β γ)
        = [Request.withExptime { exptime := e, fields := r.fields }]
      ∧ e ≠ 0 ∧ e ≤ C ∧ (C < 0 → 0 ≤ r.exptime → e = C) := by
  by_cases h : r.exptime = 0 ∨ r.exptime > C
  · refine ⟨C, ?_, hC, le_refl C, fun _ _ => rfl⟩
    unfold forwarded
    rw [probe_min_rewrite C r h]
    rfl
  · refine ⟨r.exptime, ?_, fun h0 => h (Or.inl h0), ?_, fun hneg hpos => ?_⟩
    · unfold forwarded
      rw [probe_min_keep C r h]
      rfl
    · by_contra hgt
      exact h (Or.inr (by omega))
    · exfalso
      apply h
      by_cases h0 : r.exptime = 0
      · exact Or.inl h0
      · exact Or.inr (by omega)

theorem min_forwarded_bounds_witness :
    ((-5 : Int) ≠ 0)
    ∧ ∃ e : Int,
      forwarded (-5) Action.Min
          (Request.withExptime { exptime := 3, fields := "key" } : Request String Nat)
        = [Request.withExptime { exptime := e, fields := "key" }]
      ∧ e ≠ 0 ∧ e ≤ -5 ∧ ((-5 : Int) < 0 → (0 : Int) ≤ 3 → e = -5) :=
  ⟨by decide, min_forwarded_bounds (-5) { exptime := 3, fields := "key" } (by decide)⟩

/-! ## Stacked nodes -/

theorem asRouteHandle_route {σ β γ ρ : Type} (n : ModifyExptimeRoute σ β γ ρ)
    (req : Request β γ) (w : World σ β γ) :
    (ModifyExptimeRoute.asRouteHandle n).route req w = n.route req w := rfl

/-- What the child of a Set node is called with. -/
theorem forwarded_set {β γ : Type} (C : Int) (r : TypedThriftRequest β) :
    forwarded C Action.Set (Request.withExptime r : Request β γ)
      = [Request.withExptime { exptime := C, fields := r.fields }] := rfl

/-- What the child of a Min node is called with. -/
theorem forwarded_min {β γ : Type} (C : Int) (r : TypedThriftRequest β) :
    forwarded C Action.Min (Request.withExptime r : Request β γ)
      = [Request.withExptime
          { exptime := if r.exptime = 0 ∨ r.exptime > C then C else r.exptime,
            fields := r.fields }] := by
  unfold forwarded
  by_cases h : r.exptime = 0 ∨ r.exptime > C
  · rw [probe_min_rewrite C r h, if_pos h]; rfl
  · rw [probe_min_keep C r h, if_neg h]; rfl

/-- What the child of any node is called with, for a request without exptime. -/
theorem forwarded_other {β γ : Type} (C : Int) (a : Action) (g : γ) :
    forwarded C a (Request.other g : Request β γ) = [Request.other g] := by
  simp [forwarded, probe, ModifyExptimeRoute.route, recordingHandle, routedRequests]

/-- A stacked node calls the final child once, on the request that the inner node
forwards when given what the outer node forwards. -/
theorem stacked_route {σ β γ ρ : Type} (C1 : Int) (a1 : Action) (C2 : Int) (a2 : Action)
    (req req1 req2 : Request β γ) (h1 : forwarded C1 a1 req = [req1])
    (h2 : forwarded C2 a2 req1 = [req2]) (f : Request β γ → σ → ρ × σ)
    (w : World σ β γ) :
    ∃ pre : List (Event β γ), routedRequests pre = []
      ∧ ModifyExptimeRoute.route (stacked C1 a1 C2 a2 (recordingHandle f)) req w
        = ((f req2 w.ext).1,
            { trace := w.trace ++ pre ++ [Event.routed req2], ext := (f req2 w.ext).2 }) := by
  obtain ⟨x1, pre1, hpre1, hf1, hr1⟩ := route_via_forwarded C1 a1 req
  have hx1 : x1 = req1 := by
    rw [hf1] at h1
    exact List.head_eq_of_cons_eq h1
  subst hx1
  obtain ⟨x2, pre2, hpre2, hf2, hr2⟩ := route_via_forwarded C2 a2 x1
  have hx2 : x2 = req2 := by
    rw [hf2] at h2
    exact List.head_eq_of_cons_eq h2
  subst hx2
  refine ⟨pre1 ++ pre2, by rw [routedRequests_append, hpre1, hpre2]; rfl, ?_⟩
  unfold stacked
  rw [hr1, asRouteHandle_route, hr2, recordingHandle_route]
  simp only [List.append_assoc]

/-- The probing run of a stacked node. -/
theorem forwardedStacked_eq {β γ : Type} (C1 : Int) (a1 : Action) (C2 : Int) (a2 : Action)
    (req req1 req2 : Request β γ) (h1 : forwarded C1 a1 req = [req1])
    (h2 : forwarded C2 a2 req1 = [req2]) :
    forwardedStacked C1 a1 C2 a2 req = [req2] := by
  obtain ⟨pre, hpre, hr⟩ :=
    stacked_route C1 a1 C2 a2 req req1 req2 h1 h2
      (fun (_ : Request β γ) (s : Unit) => ((), s)) { trace := [], ext := () }
  unfold forwardedStacked
  rw [hr]
  simp [routedRequests_append, hpre, routedRequests]

/-- Routing with a recording child: reply and downstream state are the child's on
the request the probing run shows, and the trace gains that one call. -/
theorem route_recording {σ β γ ρ : Type} (C : Int) (a : Action) (req req1 : Request β γ)
    (h : forwarded C a req = [req1]) (f : Request β γ → σ → ρ × σ) (w : World σ β γ) :
    ∃ pre : List (Event β γ), routedRequests pre = []
      ∧ ModifyExptimeRoute.route
          { target_ := recordingHandle f, exptime_ := C, action_ := a } req w
        = ((f req1 w.ext).1,
            { trace := w.trace ++ pre ++ [Event.routed req1], ext := (f req1 w.ext).2 }) := by
  obtain ⟨x1, pre, hpre, hf, hr⟩ := route_via_forwarded C a req
  have hx1 : x1 = req1 := by
    rw [hf] at h
    exact List.head_eq_of_cons_eq h
  subst hx1
  exact ⟨pre, hpre, by rw [hr, recordingHandle_route]⟩

/-- What a node forwards, it forwards unchanged when given it again. -/
theorem forwarded_idem {β γ : Type} (C : Int) (a : Action) (req req1 : Request β γ)
    (h : forwarded C a req = [req1]) : forwarded C a req1 = [req1] := by
  cases req with
  | other g =>
    rw [forwarded_other] at h
    rw [← List.head_eq_of_cons_eq h, forwarded_other]
  | withExptime r =>
    cases a with
    | Set =>
      rw [forwarded_set] at h
      rw [← List.head_eq_of_cons_eq h, forwarded_set]
    | Min =>
      rw [forwarded_min] at h
      rw [← List.head_eq_of_cons_eq h, forwarded_min]
      have he : (if (if r.exptime = 0 ∨ r.exptime > C then C else r.exptime) = 0
            ∨ (if r.exptime = 0 ∨ r.exptime > C then C else r.exptime) > C
          then C else (if r.exptime = 0 ∨ r.exptime > C then C else r.exptime))
          = (if r.exptime = 0 ∨ r.exptime > C then C else r.exptime) := by
        split_ifs <;> omega
      simp only [he]

theorem min_step_compose (C1 C2 E : Int) (h1 : C1 ≠ 0) (h2 : C2 ≠ 0) :
    (if (if E = 0 ∨ E > C1 then C1 else E) = 0 ∨ (if E = 0 ∨ E > C1 then C1 else E) > C2
      then C2 else (if E = 0 ∨ E > C1 then C1 else E))
    = if E = 0 ∨ E > min C1 C2 then min C1 C2 else E := by
  rcases le_total C1 C2 with hle | hle
  · rw [min_eq_left hle]
    split_ifs <;> omega
  · rw [min_eq_right hle]
    split_ifs <;> omega

/-- Two stacked Min nodes forward what the inner one forwards on the outer one's
output, and that is what one Min node with the smaller exptime forwards. -/
theorem forwarded_min_min {β γ : Type} (C1 C2 : Int) (r : TypedThriftRequest β)
    (h1 : C1 ≠ 0) (h2 : C2 ≠ 0) :
    ∃ req1 req2 : Request β γ,
      forwarded C1 Action.Min (Request.withExptime r) = [req1]
      ∧ forwarded C2 Action.Min req1 = [req2]
      ∧ forwarded (min C1 C2) Action.Min (Request.withExptime r) = [req2] := by
  refine ⟨_, _, forwarded_min C1 r, forwarded_min C2 _, ?_⟩
  rw [forwarded_min]
  simp only [min_step_compose C1 C2 r.exptime h1 h2]

/-- C14 (idempotence): for every policy, configured exptime `C` and request, a node
whose child is a second node with the same policy and `C` has the final child
called with exactly the request a single such node forwards; and for every final
child behaviour and world, reply, downstream state and the calls of the final
child are the same for the stacked pair and for the single node.  This holds for
every `C`, so in particular for `C ≠ 0` under Min. -/
theorem stacked_same_node_idempotent {β γ : Type} (C : Int) (a : Action)
    (req : Request β γ) :
    forwardedStacked C a C a req = forwarded C a req
    ∧ ∀ (σ ρ : Type) (f : Request β γ → σ → ρ × σ) (w : World σ β γ),
        (ModifyExptimeRoute.route (stacked C a C a (recordingHandle f)) req w).1
          = (ModifyExptimeRoute.route
              { target_ := recordingHandle f, exptime_ := C, action_ := a } req w).1
        ∧ (ModifyExptimeRoute.route (stacked C a C a (recordingHandle f)) req w).2.ext
          = (ModifyExptimeRoute.route
              { target_ := recordingHandle f, exptime_ := C, action_ := a } req w).2.ext
        ∧ routedRequests
            (ModifyExptimeRoute.route (stacked C a C a (recordingHandle f)) req w).2.trace
          = routedRequests
              (ModifyExptimeRoute.route
                { target_ := recordingHandle f, exptime_ := C, action_ := a }
                req w).2.trace := by
  obtain ⟨req1, _, _, hf, _⟩ := route_via_forwarded C a req
  have hidem := forwarded_idem C a req req1 hf
  refine ⟨by rw [forwardedStacked_eq C a C a req req1 req1 hf hidem, hf], ?_⟩
  intro σ ρ f w
  obtain ⟨pre2, hpre2, hst⟩ := stacked_route C a C a req req1 req1 hf hidem f w
  obtain ⟨pre1, hpre1, hsg⟩ := route_recording C a req req1 hf f w
  rw [hst, hsg]
  refine ⟨rfl, rfl, ?_⟩
  simp only [routedRequests_append, hpre1, hpre2]

/-- C15 (composition of Min nodes): for non-zero configured exptimes `C1`, `C2` and
every request with an expiration field, a Min(`C1`) node whose child is a
Min(`C2`) node has the final child called with exactly the request a single
Min(`min C1 C2`) node forwards (`min` the minimum of integers), so the two orders
of stacking forward the same request; and for every final child behaviour `f` and
world `w`, reply, downstream state and the calls of the final child are the same
for the stacked pair and for the single node. -/
theorem stacked_min_is_min {σ β γ ρ : Type} (f : Request β γ → σ → ρ × σ)
    (w : World σ β γ) (C1 C2 : Int) (r : TypedThriftRequest β)
    (h1 : C1 ≠ 0) (h2 : C2 ≠ 0) :
    forwardedStacked C1 Action.Min C2 Action.Min (Request.withExptime r : Request β γ)
      = forwarded (min C1 C2) Action.Min (Request.withExptime r)
    ∧ forwardedStacked C1 Action.Min C2 Action.Min (Request.withExptime r : Request β γ)
      = forwardedStacked C2 Action.Min C1 Action.Min (Request.withExptime r)
    ∧ (ModifyExptimeRoute.route
          (stacked C1 Action.Min C2 Action.Min (recordingHandle f))
          (Request.withExptime r) w).1
        = (ModifyExptimeRoute.route
            { target_ := recordingHandle f, exptime_ := min C1 C2, action_ := Action.Min }
            (Request.withExptime r) w).1
    ∧ (ModifyExptimeRoute.route
          (stacked C1 Action.Min C2 Action.Min (recordingHandle f))
          (Request.withExptime r) w).2.ext
        = (ModifyExptimeRoute.route
            { target_ := recordingHandle f, exptime_ := min C1 C2, action_ := Action.Min }
            (Request.withExptime r) w).2.ext
    ∧ routedRequests
          (ModifyExptimeRoute.route
            (stacked C1 Action.Min C2 Action.Min (recordingHandle f))
            (Request.withExptime r) w).2.trace
        = routedRequests
            (ModifyExptimeRoute.route
              { target_ := recordingHandle f, exptime_ := min C1 C2, action_ := Action.Min }
              (Request.withExptime r) w).2.trace := by
  obtain ⟨req1, req2, hf1, hf2, hm⟩ := forwarded_min_min (γ := γ) C1 C2 r h1 h2
  obtain ⟨x1, x2, hg1, hg2, hm2⟩ := forwarded_min_min (γ := γ) C2 C1 r h2 h1
  have h12 := forwardedStacked_eq C1 Action.Min C2 Action.Min _ req1 req2 hf1 hf2
  have h21 := forwardedStacked_eq C2 Action.Min C1 Action.Min _ x1 x2 hg1 hg2
  obtain ⟨pre2, hpre2, hst⟩ :=
    stacked_route C1 Action.Min C2 Action.Min _ req1 req2 hf1 hf2 f w
  obtain ⟨pre1, hpre1, hsg⟩ := route_recording (min C1 C2) Action.Min _ req2 hm f w
  refine ⟨by rw [h12, hm], ?_, ?_⟩
  · rw [h12, h21, ← hm, ← hm2, min_comm]
  · rw [hst, hsg]
    refine ⟨rfl, rfl, ?_⟩
    simp only [routedRequests_append, hpre1, hpre2]

theorem stacked_min_is_min_witness :
    ((60 : Int) ≠ 0 ∧ (-5 : Int) ≠ 0)
    ∧ (forwardedStacked 60 Action.Min (-5) Action.Min
          (Request.withExptime { exptime := 30, fields := "key" } : Request String Nat)
        = forwarded (min 60 (-5)) Action.Min
            (Request.withExptime { exptime := 30, fields := "key" })
      ∧ forwardedStacked 60 Action.Min (-5) Action.Min
          (Request.withExptime { exptime := 30, fields := "key" } : Request String Nat)
        = forwardedStacked (-5) Action.Min 60 Action.Min
            (Request.withExptime { exptime := 30, fields := "key" })
      ∧ (ModifyExptimeRoute.route
            (stacked 60 Action.Min (-5) Action.Min (recordingHandle sampleChild))
            (Request.withExptime { exptime := 30, fields := "key" }) sampleWorld).1
          = (ModifyExptimeRoute.route
              { target_ := recordingHandle sampleChild, exptime_ := min 60 (-5),
                action_ := Action.Min }
              (Request.withExptime { exptime := 30, fields := "key" }) sampleWorld).1
      ∧ (ModifyExptimeRoute.route
            (stacked 60 Action.Min (-5) Action.Min (recordingHandle sampleChild))
            (Request.withExptime { exptime := 30, fields := "key" }) sampleWorld).2.ext
          = (ModifyExptimeRoute.route
              { target_ := recordingHandle sampleChild, exptime_ := min 60 (-5),
                action_ := Action.Min }
              (Request.withExptime { exptime := 30, fields := "key" }) sampleWorld).2.ext
      ∧ routedRequests
            (ModifyExptimeRoute.route
              (stacked 60 Action.Min (-5) Action.Min (recordingHandle sampleChild))
              (Request.withExptime { exptime := 30, fields := "key" }) sampleWorld).2.trace
          = routedRequests
              (ModifyExptimeRoute.route
                { target_ := recordingHandle sampleChild, exptime_ := min 60 (-5),
                  action_ := Action.Min }
                (Request.withExptime { exptime := 30, fields := "key" })
                sampleWorld).2.trace) :=
  ⟨by decide,
    stacked_min_is_min sampleChild sampleWorld 60 (-5) { exptime := 30, fields := "key" }
      (by decide) (by decide)⟩

/-! ## The caller's request is never written -/

theorem list_set_concat {α : Type} (l : List α) (a b : α) :
    (l ++ [a]).set l.length b = l ++ [b] := by
  induction l with
  | nil => rfl
  | cons x xs ih => simp [List.set, ih]

theorem store_read_concat_last {β : Type} (cells : List (TypedThriftRequest β))
    (x : TypedThriftRequest β) :
    Store.read { cells := cells ++ [x] } cells.length = some x := by
  simp [Store.read]

theorem store_read_concat_old {β : Type} (cells : List (TypedThriftRequest β))
    (x : TypedThriftRequest β) (i : Nat) (hi : i < cells.length) :
    Store.read { cells := cells ++ [x] } i = Store.read { cells := cells } i := by
  simp [Store.read, List.getElem?_append_left hi]

/-- Cloning the request at `p` and setting the exptime of the copy leaves the old
cells as they were and adds one cell. -/
theorem store_clone_set_exptime {σ β γ : Type} (s : Store β) (p : Nat) (w : World σ β γ)
    (r : TypedThriftRequest β) (C : Int) (hr : s.read p = some r) :
    s.clone p w
        = some (s.cells.length, { cells := s.cells ++ [r] },
            { trace := w.trace ++ [Event.cloned r], ext := w.ext })
    ∧ Store.set_exptime { cells := s.cells ++ [r] } s.cells.length C
        = { cells := s.cells ++ [{ exptime := C, fields := r.fields }] } := by
  constructor
  · simp [Store.clone, hr]
  · simp [Store.set_exptime, store_read_concat_last, list_set_concat,
      TypedThriftRequest.set_exptime]

/-- The rewriting path of `routeRef`. -/
theorem routeRef_rewrite {σ β γ ρ : Type} (n : ModifyExptimeRoute σ β γ ρ) (p : Nat)
    (s : Store β) (w : World σ β γ) (r : TypedThriftRequest β) (hr : s.read p = some r)
    (h : n.action_ = Action.Set
      ∨ (n.action_ = Action.Min ∧ (r.exptime = 0 ∨ r.exptime > n.exptime_))) :
    n.routeRef p s w
      = some { forwardedAt := s.cells.length,
               store := { cells := s.cells ++ [{ exptime := n.exptime_, fields := r.fields }] },
               result := n.target_.route
                 (Request.withExptime { exptime := n.exptime_, fields := r.fields })
                 { trace := w.trace ++ [Event.cloned r], ext := w.ext } } := by
  obtain ⟨hc, hs⟩ := store_clone_set_exptime s p w r n.exptime_ hr
  rcases h with ha | ⟨ha, hcond⟩
  · simp only [ModifyExptimeRoute.routeRef, hr, ha, hc, hs,
      ModifyExptimeRoute.routeTargetRef, store_read_concat_last]
  · simp only [ModifyExptimeRoute.routeRef, hr, ha, hc, hs, if_pos hcond,
      ModifyExptimeRoute.routeTargetRef, store_read_concat_last]

/-- The forwarding path of `routeRef`. -/
theorem routeRef_keep {σ β γ ρ : Type} (n : ModifyExptimeRoute σ β γ ρ) (p : Nat)
    (s : Store β) (w : World σ β γ) (r : TypedThriftRequest β) (hr : s.read p = some r)
    (ha : n.action_ = Action.Min) (h : ¬ (r.exptime = 0 ∨ r.exptime > n.exptime_)) :
    n.routeRef p s w
      = some { forwardedAt := p, store := s,
               result := n.target_.route (Request.withExptime r) w } := by
  simp only [ModifyExptimeRoute.routeRef, hr, ha, if_neg h,
    ModifyExptimeRoute.routeTargetRef]


theorem store_read_lt {β : Type} (s : Store β) (p : Nat) (r : TypedThriftRequest β)
    (hr : s.read p = some r) : p < s.cells.length := by
  unfold Store.read at hr
  by_contra hge
  rw [List.getElem?_eq_none (by omega)] at hr
  cases hr

/-- C12 (copy-on-write frame): for every node (any policy, any configured exptime),
with the caller's request `r` held at address `p`, `route` by reference succeeds
and: the request handed to the child has the same other fields as `r`; after the
call address `p` still holds `r` and every cell that existed before holds what it
held; the request handed to the child is the caller's own cell or a cell that did
not exist before (the copy), never a changed old cell; the result is that of
`route` on the value `r`, and the request the child sees is the one the probing
run of `route` shows. -/
theorem route_copy_on_write {σ β γ ρ : Type} (n : ModifyExptimeRoute σ β γ ρ) (p : Nat)
    (s : Store β) (w : World σ β γ) (r : TypedThriftRequest β) (hr : s.read p = some r) :
    ∃ (out : RefOutcome σ β γ ρ) (r1 : TypedThriftRequest β),
      n.routeRef p s w = some out
      ∧ out.store.read out.forwardedAt = some r1
      ∧ r1.fields = r.fields
      ∧ out.store.read p = some r
      ∧ (∀ i, i < s.cells.length → out.store.read i = s.read i)
      ∧ ((out.forwardedAt = p ∧ out.store = s) ∨ s.cells.length ≤ out.forwardedAt)
      ∧ out.result = n.route (Request.withExptime r) w
      ∧ forwarded n.exptime_ n.action_ (Request.withExptime r : Request β γ)
        = [Request.withExptime r1] := by
  have hp := store_read_lt s p r hr
  by_cases h : n.action_ = Action.Set
      ∨ (n.action_ = Action.Min ∧ (r.exptime = 0 ∨ r.exptime > n.exptime_))
  · refine ⟨_, { exptime := n.exptime_, fields := r.fields },
      routeRef_rewrite n p s w r hr h, store_read_concat_last _ _, rfl, ?_, ?_,
      Or.inr (le_refl _), ?_, ?_⟩
    · rw [store_read_concat_old _ _ p hp]; exact hr
    · intro i hi
      exact store_read_concat_old _ _ i hi
    · obtain ⟨t, C, a⟩ := n
      rcases h with ha | ⟨ha, hcond⟩
      · simp only at ha
        subst ha
        exact (route_set_eq t C r w).symm
      · simp only at ha hcond
        subst ha
        exact (route_min_rewrite t C r w hcond).symm
    · obtain ⟨t, C, a⟩ := n
      rcases h with ha | ⟨ha, hcond⟩
      · simp only at ha
        subst ha
        exact forwarded_set C r
      · simp only at ha hcond
        subst ha
        rw [forwarded_min, if_pos hcond]
  · obtain ⟨t, C, a⟩ := n
    have ha : a = Action.Min := by
      cases a
      · exact absurd (Or.inl rfl) h
      · rfl
    subst ha
    have hcond : ¬ (r.exptime = 0 ∨ r.exptime > C) := fun hc => h (Or.inr ⟨rfl, hc⟩)
    refine ⟨_, r, routeRef_keep _ p s w r hr rfl hcond, hr, rfl, hr, fun i _ => rfl,
      Or.inl ⟨rfl, rfl⟩, (route_min_keep t C r w hcond).symm, ?_⟩
    rw [forwarded_min]
    simp only [if_neg hcond]

theorem route_copy_on_write_witness :
    (sampleStore.read 0 = some { exptime := 100, fields := "a" })
    ∧ ∃ (out : RefOutcome Nat String Nat Int) (r1 : TypedThriftRequest String),
      ModifyExptimeRoute.routeRef
          { target_ := recordingHandle sampleChild, exptime_ := 60, action_ := Action.Min }
          0 sampleStore sampleWorld = some out
      ∧ out.store.read out.forwardedAt = some r1
      ∧ r1.fields = (TypedThriftRequest.mk 100 "a").fields
      ∧ out.store.read 0 = some { exptime := 100, fields := "a" }
      ∧ (∀ i, i < sampleStore.cells.length → out.store.read i = sampleStore.read i)
      ∧ ((out.forwardedAt = 0 ∧ out.store = sampleStore)
          ∨ sampleStore.cells.length ≤ out.forwardedAt)
      ∧ out.result
        = ModifyExptimeRoute.route
            { target_ := recordingHandle sampleChild, exptime_ := 60, action_ := Action.Min }
            (Request.withExptime { exptime := 100, fields := "a" }) sampleWorld
      ∧ forwarded 60 Action.Min
          (Request.withExptime { exptime := 100, fields := "a" } : Request String Nat)
        = [Request.withExptime r1] :=
  ⟨by decide,
    route_copy_on_write
      { target_ := recordingHandle sampleChild, exptime_ := 60, action_ := Action.Min }
      0 sampleStore sampleWorld { exptime := 100, fields := "a" } (by decide)⟩

/-! ## The name determines the configuration -/

theorem digitsValue_append_singleton (cs : List Char) (c : Char) :
    digitsValue (cs ++ [c]) = digitsValue cs * 10 + (c.toNat - 48) := by
  simp [digitsValue, List.foldl_append]

theorem digitChar_value {k : Nat} (hk : k < 10) : (Nat.digitChar k).toNat - 48 = k := by
  interval_cases k <;> decide

theorem digitChar_ne_minus {k : Nat} (hk : k < 10) : Nat.digitChar k ≠ '-' := by
  interval_cases k <;> decide

/-- With enough fuel, `toDigitsCore` puts in front of `ds` a non-empty list of
digits that reads back as `n`. -/
theorem toDigitsCore_spec (fuel : Nat) : ∀ (n : Nat) (ds : List Char), n < fuel →
    ∃ L : List Char, Nat.toDigitsCore 10 fuel n ds = L ++ ds ∧ digitsValue L = n
      ∧ L ≠ [] ∧ ∀ c ∈ L, c ≠ '-' := by
  induction fuel with
  | zero => intro n ds h; omega
  | succ fuel ih =>
    intro n ds h
    have hd : n % 10 < 10 := Nat.mod_lt _ (by decide)
    by_cases h0 : n / 10 = 0
    · refine ⟨[Nat.digitChar (n % 10)], ?_, ?_, by simp, ?_⟩
      · simp [Nat.toDigitsCore, h0]
      · have hn : n % 10 = n := by omega
        have hv := digitChar_value hd
        rw [hn] at hv
        simp [digitsValue, hv, hn]
      · intro c hc
        simp at hc
        rw [hc]; exact digitChar_ne_minus hd
    · have hlt : n / 10 < fuel := by omega
      obtain ⟨L, hL, hv, _, hdig⟩ := ih (n / 10) (Nat.digitChar (n % 10) :: ds) hlt
      refine ⟨L ++ [Nat.digitChar (n % 10)], ?_, ?_, by simp, ?_⟩
      · simp [Nat.toDigitsCore, h0, hL]
      · rw [digitsValue_append_singleton, hv, digitChar_value hd]
        omega
      · intro c hc
        rcases List.mem_append.mp hc with hc | hc
        · exact hdig c hc
        · simp at hc
          rw [hc]; exact digitChar_ne_minus hd

theorem repr_spec (n : Nat) :
    digitsValue (Nat.repr n).data = n ∧ (Nat.repr n).data ≠ []
      ∧ ∀ c ∈ (Nat.repr n).data, c ≠ '-' := by
  obtain ⟨L, hL, hv, hne, hdig⟩ := toDigitsCore_spec (n + 1) n [] (Nat.lt_succ_self n)
  have : (Nat.repr n).data = L := by
    simp [Nat.repr, Nat.toDigits, hL, List.asString]
  rw [this]
  exact ⟨hv, hne, hdig⟩

theorem repr_injective {m n : Nat} (h : Nat.repr m = Nat.repr n) : m = n := by
  have hm := (repr_spec m).1
  rw [h, (repr_spec n).1] at hm
  exact hm.symm

theorem decimal_data (i : Int) :
    (decimal i).data
      = if i < 0 then '-' :: (Nat.repr i.natAbs).data else (Nat.repr i.natAbs).data := by
  unfold decimal
  split <;> simp [String.data_append]

theorem decimal_injective {i j : Int} (h : decimal i = decimal j) : i = j := by
  have hd : (decimal i).data = (decimal j).data := by rw [h]
  rw [decimal_data, decimal_data] at hd
  by_cases hi : i < 0 <;> by_cases hj : j < 0
  · rw [if_pos hi, if_pos hj] at hd
    have := repr_injective (String.ext (List.cons.inj hd).2)
    omega
  · rw [if_pos hi, if_neg hj] at hd
    obtain ⟨_, hne, hdig⟩ := repr_spec j.natAbs
    exact absurd rfl (hdig '-' (by rw [← hd]; simp))
  · rw [if_neg hi, if_pos hj] at hd
    obtain ⟨_, hne, hdig⟩ := repr_spec i.natAbs
    exact absurd rfl (hdig '-' (by rw [hd]; simp))
  · rw [if_neg hi, if_neg hj] at hd
    have := repr_injective (String.ext hd)
    omega

/-- C16 (the name determines the configuration): two nodes have the same
`routeName` exactly when they have the same policy and the same configured
exptime; so for policies in {Set, Min} and any `int32_t` exptimes, equal names
force equal policy and equal exptime. -/
theorem routeName_injective {σ β γ ρ σ2 β2 γ2 ρ2 : Type} (n1 : ModifyExptimeRoute σ β γ ρ)
    (n2 : ModifyExptimeRoute σ2 β2 γ2 ρ2) :
    n1.routeName = n2.routeName ↔ (n1.action_ = n2.action_ ∧ n1.exptime_ = n2.exptime_) := by
  obtain ⟨t1, C1, a1⟩ := n1
  obtain ⟨t2, C2, a2⟩ := n2
  constructor
  · intro h
    simp only [ModifyExptimeRoute.routeName, sformat_routeName, Option.some.injEq] at h
    have hd := congrArg String.data h
    simp only [String.data_append] at hd
    cases a1 <;> cases a2
    · have hdec : (decimal C1).data = (decimal C2).data := by
        simpa [ModifyExptimeRoute.actionToString] using hd
      exact ⟨rfl, decimal_injective (String.ext hdec)⟩
    · exfalso
      simp [ModifyExptimeRoute.actionToString] at hd
    · exfalso
      simp [ModifyExptimeRoute.actionToString] at hd
    · have hdec : (decimal C1).data = (decimal C2).data := by
        simpa [ModifyExptimeRoute.actionToString] using hd
      exact ⟨rfl, decimal_injective (String.ext hdec)⟩
  · rintro ⟨ha, hc⟩
    simp only at ha hc
    simp only [ModifyExptimeRoute.routeName, ha, hc]

end mcrouter
